import Mathlib

/-!
Shallow embedding of the reconciliation core of this repository.

Reconciliation-engine part (src/src/compiler/ast/statement/IfStatement.ts,
lines 40-69, class StraightReplacementNodeHandler):
underlying parse nodes are immutable trees (`TsNode`), wrapper nodes are
identity-stable objects modelled by their identities arranged in a tree of
tracked (materialized) children (`WTree`), and the registry's current
wrapper-to-underlying association is a binding map (`Bindings`).  The
straight replacement strategy `handleNode` / `handleChildren` threads the
binding state explicitly and returns the state together with an optional
error, so that mutations performed before a raise stay visible (matching the
in-place mutation of the source).

Accessor-layer part (src/src/compiler/ast/statement/IfStatement.ts lines
7-28 and src/unnamed/part_000): direct functional translations further down
in this file.
-/

/-- Underlying parse node (spec section 3): a syntax kind tag, a start
offset into the document text, and the ordered list of children.  Produced
by the external parser; immutable. -/
inductive TsNode : Type where
  | mk : Nat → Nat → List TsNode → TsNode

/-- Syntax kind tag of an underlying parse node. -/
def TsNode.kind : TsNode → Nat
  | .mk k _ _ => k

/-- Start offset of an underlying parse node. -/
def TsNode.pos : TsNode → Nat
  | .mk _ p _ => p

/-- Ordered children of an underlying parse node, in document order. -/
def TsNode.children : TsNode → List TsNode
  | .mk _ _ cs => cs

mutual

/-- Structural equality test on underlying parse nodes. -/
def TsNode.beq : TsNode → TsNode → Bool
  | .mk k p cs, .mk k' p' cs' => k == k' && p == p' && TsNode.beqList cs cs'

/-- Pointwise structural equality test on lists of underlying parse nodes. -/
def TsNode.beqList : List TsNode → List TsNode → Bool
  | [], [] => true
  | a :: as, b :: bs => TsNode.beq a b && TsNode.beqList as bs
  | _, _ => false

end

/-- Wrapper-tree shape: a wrapper node's identity (`wid`, standing for the
object identity of the long-lived facade object) together with its ordered
list of currently materialized (tracked) wrapper children (spec section 3).
Reconciliation never creates or destroys wrapper objects, so the shape is
immutable data; only the binding map below changes. -/
inductive WTree : Type where
  | mk : Nat → List WTree → WTree

/-- Identity of a wrapper node. -/
def WTree.wid : WTree → Nat
  | .mk w _ => w

/-- Tracked (materialized) wrapper children of a wrapper node. -/
def WTree.childWrappers : WTree → List WTree
  | .mk _ cs => cs

/-- Binding state of the node registry (spec section 3): for each wrapper
identity, the underlying parse node it is currently bound to.  A wrapper's
kind() is the kind of its bound node. -/
abbrev Bindings : Type := Nat → TsNode

/-- Modelled from the spec: the registry rebind operation (section 4.1) of
CompilerFactory.replaceCompilerNode, which is not part of src/.  It replaces
the wrapper's bound underlying node, keeping the wrapper's identity. -/
def Bindings.set (σ : Bindings) (wid : Nat) (n : TsNode) : Bindings :=
  fun i => if i = wid then n else σ i

/-- Errors raised by the straight replacement strategy: the
InvalidOperationError of handleNode carrying both kind tags, the plain Error
of handleChildren for leftover new children, and the dispatch of a wrapper
child with the new-children cursor already exhausted (the source's iterator
would hand an undefined value to the helper there). -/
inductive RError : Type where
  | invalidOperation : Nat → Nat → RError
  | leftoverNewChildren : RError
  | missingNewChild : RError
deriving DecidableEq

mutual

/-- StraightReplacementNodeHandler.handleNode (src lines 47-57): raise an
InvalidOperationError carrying both kinds when the wrapper's kind differs
from the new node's kind; otherwise reconcile the tracked children first
when any exist (the source's hasWrappedChildren guard), and finally rebind
the wrapper to the new node.  State is threaded so a raise keeps the
rebindings already performed. -/
def handleNode (σ : Bindings) (w : WTree) (n : TsNode) : Bindings × Option RError :=
  match w with
  | .mk wid ws =>
    if (σ wid).kind ≠ n.kind then
      (σ, some (.invalidOperation (σ wid).kind n.kind))
    else if ws.isEmpty then
      (Bindings.set σ wid n, none)
    else
      match handleChildren σ ws n.children with
      | (σ', some e) => (σ', some e)
      | (σ', none) => (Bindings.set σ' wid n, none)

/-- StraightReplacementNodeHandler.handleChildren (src lines 59-69), with
the helper calls it makes modelled from the spec (section 4.3), since
NodeHandlerHelper is not part of src/: the wrapper's materialized children
in tracked order are paired positionally against the new node's children in
document order, one new child consumed per wrapper child, each pair
dispatched back into the strategy; after the wrapper children are exhausted
a leftover new child raises a plain Error. -/
def handleChildren (σ : Bindings) (ws : List WTree) (ns : List TsNode) :
    Bindings × Option RError :=
  match ws, ns with
  | [], ns => if ns.isEmpty then (σ, none) else (σ, some .leftoverNewChildren)
  | _ :: _, [] => (σ, some .missingNewChild)
  | w :: ws, n :: ns =>
    match handleNode σ w n with
    | (σ', some e) => (σ', some e)
    | (σ', none) => handleChildren σ' ws ns

end

mutual

/-- Identities of all wrapper nodes of a wrapper subtree, root first. -/
def WTree.wids : WTree → List Nat
  | .mk wid ws => wid :: widsList ws

/-- Identities of all wrapper nodes of a list of wrapper subtrees. -/
def widsList : List WTree → List Nat
  | [] => []
  | w :: ws => w.wids ++ widsList ws

end

mutual

/-- Shape equality of underlying parse trees: kind-for-kind and
child-count-for-child-count identical, ignoring text offsets.  This is the
correspondence the spec's identity-preservation property assumes between the
old and the reparsed subtree. -/
def shapeEq : TsNode → TsNode → Bool
  | .mk k _ cs, .mk k' _ cs' => k == k' && shapeEqList cs cs'

/-- Pointwise shape equality of two lists of parse trees; false when the
lengths differ. -/
def shapeEqList : List TsNode → List TsNode → Bool
  | [], [] => true
  | a :: as, b :: bs => shapeEq a b && shapeEqList as bs
  | _, _ => false

end

mutual

/-- Wrapper-tree well-formedness against the binding state (spec sections 3
and 4.4): a wrapper node either has no materialized children, or its tracked
children line up one-for-one with the children of its bound underlying node,
each tracked child's own bound node being shape-identical to the underlying
child at its position.  This is the state the lazily populated child lists
are in whenever reconciliation starts. -/
def consistent (σ : Bindings) : WTree → Bool
  | .mk wid ws => ws.isEmpty || consistentChildren σ ws (σ wid).children

/-- Pairwise form of `consistent` for a tracked-children list against the
bound node's children list. -/
def consistentChildren (σ : Bindings) : List WTree → List TsNode → Bool
  | [], [] => true
  | w :: ws, o :: os =>
    shapeEq (σ w.wid) o && consistent σ w && consistentChildren σ ws os
  | _, _ => false

end

mutual

/-- Rebinding correctness relation (spec section 8): under the binding state
σ, the wrapper subtree w is bound exactly onto the underlying subtree n,
meaning the root is bound to n itself, and, whenever children were
materialized, the tracked children are bound pairwise onto n's children at
the same structural paths. -/
def boundTo (σ : Bindings) : WTree → TsNode → Bool
  | .mk wid ws, n =>
    TsNode.beq (σ wid) n && (ws.isEmpty || boundToList σ ws n.children)

/-- Pairwise form of `boundTo` for a tracked-children list. -/
def boundToList (σ : Bindings) : List WTree → List TsNode → Bool
  | [], [] => true
  | w :: ws, n :: ns => boundTo σ w n && boundToList σ ws ns
  | _, _ => false

end

/-- Observation used to state kind stability: every wrapper identity in the
given list has the same kind under both binding states. -/
def kindsPreserved (σ σ' : Bindings) (ids : List Nat) : Bool :=
  ids.all fun i => (σ' i).kind == (σ i).kind

/-- Wrapper facade handed out by the accessor layer: the wrapper's identity
together with the underlying compiler node it wraps. -/
structure Wrapped : Type where
  wid : Nat
  node : TsNode

/-- Modelled from the spec: Node._getNodeFromCompilerNodeIfExists, called by
IfStatement.getElseStatement (src line 26) but itself not part of src/.
Following the section 4.1 wrap contract it returns undefined for an absent
compiler node and the factory's wrapper otherwise.  The factory itself
(getNodeFromCompilerNode, the registry wrap operation) is a parameter, since
the accessor claims hold for any factory. -/
def getNodeFromCompilerNodeIfExists (factory : TsNode → Wrapped) :
    Option TsNode → Option Wrapped
  | none => none
  | some n => some (factory n)

/-- Compiler-level shape of a ts.IfStatement: the expression, the then
statement, and the optional else statement, the three fields read by the
IfStatement wrapper (src lines 7-28). -/
structure TsIfStatement : Type where
  expression : TsNode
  thenStatement : TsNode
  elseStatement : Option TsNode

/-- IfStatement.getExpression (src lines 11-13): wraps the underlying
expression through the factory. -/
def IfStatement.getExpression (factory : TsNode → Wrapped)
    (s : TsIfStatement) : Wrapped :=
  factory s.expression

/-- IfStatement.getThenStatement (src lines 18-20): wraps the underlying
then statement through the factory. -/
def IfStatement.getThenStatement (factory : TsNode → Wrapped)
    (s : TsIfStatement) : Wrapped :=
  factory s.thenStatement

/-- IfStatement.getElseStatement (src lines 25-27): wraps the underlying
else statement when present, undefined otherwise. -/
def IfStatement.getElseStatement (factory : TsNode → Wrapped)
    (s : TsIfStatement) : Option Wrapped :=
  getNodeFromCompilerNodeIfExists factory s.elseStatement

/-- Outcome of the isSourceFile, isNamespaceDeclaration and
isFunctionDeclaration probes performed by StatementedNode.getBody
(src/unnamed/part_000 lines 34-49) on the wrapper's underlying node: the
StatementedNodeExtensionType admits a source file, a namespace (module)
declaration with its body node, a function declaration whose body may be
absent, and the remaining function-like kinds that reach the final else
branch. -/
inductive StatementedShape : Type where
  | sourceFile : StatementedShape
  | namespaceDecl : TsNode → StatementedShape
  | functionDecl : Option TsNode → StatementedShape
  | otherKind : StatementedShape

/-- Errors raised by the accessor layer: the NotImplementedError with the
message about a function declaration having no body, and the generic
getNotImplementedError of the final else branch. -/
inductive AccessorError : Type where
  | noBody : AccessorError
  | notImplemented : AccessorError
deriving DecidableEq

/-- StatementedNode.getBody (src/unnamed/part_000 lines 34-49): source files
return the wrapper itself, namespace declarations wrap their body, function
declarations wrap their body when it is non-null and otherwise raise a
NotImplementedError, and every other kind raises getNotImplementedError.
The factory (getNodeFromCompilerNode, not part of src/) is a parameter.
Totality of this function in the Except monad reflects that the source
returns a node or throws on every branch and never returns undefined. -/
def StatementedNode.getBody (factory : TsNode → Wrapped) (self : Wrapped)
    (shape : StatementedShape) : Except AccessorError Wrapped :=
  match shape with
  | .sourceFile => .ok self
  | .namespaceDecl body => .ok (factory body)
  | .functionDecl (some body) => .ok (factory body)
  | .functionDecl none => .error .noBody
  | .otherKind => .error .notImplemented

/-- Syntax kind tag standing for ts.SyntaxKind.VariableStatement. -/
def variableStatementKind : Nat := 208

/-- Modelled from the spec: getMainChildrenOfKind, used by the statement
accessors of src/unnamed/part_000 but itself not part of src/ — gets the
direct children of the node having the given syntax kind, in document
order. -/
def getMainChildrenOfKind (k : Nat) (n : TsNode) : List TsNode :=
  n.children.filter fun c => c.kind == k

/-- StatementedNode.getVariableStatements (src/unnamed/part_000 lines
126-128): the direct variable statement children. -/
def getVariableStatements (n : TsNode) : List TsNode :=
  getMainChildrenOfKind variableStatementKind n

/-- StatementedNode.getVariableDeclarationLists (src/unnamed/part_000 lines
133-135): maps VariableStatement.getDeclarationList — not part of src/ and
hence passed as a parameter — over the variable statement children. -/
def getVariableDeclarationLists (getDeclarationList : TsNode → TsNode)
    (n : TsNode) : List TsNode :=
  (getVariableStatements n).map getDeclarationList

/-- StatementedNode.getVariableDeclarations (src/unnamed/part_000 lines
140-148): starts from an empty array and pushes, for each declaration list
in order, all of that list's declarations.
VariableDeclarationList.getDeclarations is not part of src/ and is passed as
a parameter. -/
def getVariableDeclarations (getDeclarationList : TsNode → TsNode)
    (getDeclarations : TsNode → List TsNode) (n : TsNode) : List TsNode :=
  (getVariableDeclarationLists getDeclarationList n).foldl
    (fun acc l => acc ++ getDeclarations l) []

/-- Concrete parse nodes used to instantiate the claim theorems: an old
subtree of kinds 10, 11, 12. -/
def exOldA : TsNode := TsNode.mk 11 1 []

/-- Second old child node, of kind 12. -/
def exOldB : TsNode := TsNode.mk 12 2 []

/-- Old root node of kind 10 with children exOldA and exOldB. -/
def exOldRoot : TsNode := TsNode.mk 10 0 [exOldA, exOldB]

/-- Reparsed counterpart of exOldA: same kind, new offset. -/
def exNewA : TsNode := TsNode.mk 11 6 []

/-- Reparsed counterpart of exOldB: same kind, new offset. -/
def exNewB : TsNode := TsNode.mk 12 7 []

/-- Reparsed counterpart of exOldRoot: shape-identical to the old tree. -/
def exNewRoot : TsNode := TsNode.mk 10 5 [exNewA, exNewB]

/-- Node of a kind (99) matching nothing in the old tree, used for the
kind-mismatch instances. -/
def exBadNode : TsNode := TsNode.mk 99 7 []

/-- Surplus node left over after all wrapper children were paired. -/
def exExtra : TsNode := TsNode.mk 50 9 []

/-- Tracked wrapper children for the example tree: wrappers 1 and 2. -/
def exWs : List WTree := [WTree.mk 1 [], WTree.mk 2 []]

/-- Example wrapper tree: wrapper 0 with tracked children 1 and 2. -/
def exW : WTree := WTree.mk 0 exWs

/-- Example binding state: wrapper 1 is bound to exOldA, wrapper 2 to
exOldB, and every other identity (in particular the root, 0) to
exOldRoot. -/
def exSigma : Bindings :=
  fun i => if i = 1 then exOldA else if i = 2 then exOldB else exOldRoot

theorem wids_mk (wid : Nat) (ws : List WTree) :
    (WTree.mk wid ws).wids = wid :: widsList ws := rfl

theorem widsList_cons (w : WTree) (ws : List WTree) :
    widsList (w :: ws) = w.wids ++ widsList ws := rfl

theorem widsList_append : ∀ xs ys : List WTree,
    widsList (xs ++ ys) = widsList xs ++ widsList ys
  | [], ys => rfl
  | x :: xs, ys => by
    simp [widsList_cons, widsList_append xs ys, List.append_assoc]

theorem wid_mem_wids (w : WTree) : w.wid ∈ w.wids := by
  cases w with
  | mk wid ws => simp [WTree.wid, wids_mk]

mutual

theorem TsNode.beq_iff : ∀ a b : TsNode, (TsNode.beq a b = true) ↔ a = b
  | .mk k p cs, .mk k' p' cs' => by
    rw [TsNode.beq]
    simp only [Bool.and_eq_true, beq_iff_eq, TsNode.mk.injEq,
      TsNode.beqList_iff cs cs', and_assoc]

theorem TsNode.beqList_iff : ∀ as bs : List TsNode,
    (TsNode.beqList as bs = true) ↔ as = bs
  | [], [] => by simp [TsNode.beqList]
  | [], _ :: _ => by simp [TsNode.beqList]
  | _ :: _, [] => by simp [TsNode.beqList]
  | a :: as, b :: bs => by
    rw [TsNode.beqList]
    simp only [Bool.and_eq_true, TsNode.beq_iff a b, TsNode.beqList_iff as bs,
      List.cons.injEq]

end

theorem TsNode.beq_refl (a : TsNode) : TsNode.beq a a = true :=
  (TsNode.beq_iff a a).mpr rfl

theorem shapeEq_kind : ∀ a b : TsNode, shapeEq a b = true → a.kind = b.kind
  | .mk k p cs, .mk k' p' cs', h => by
    rw [shapeEq] at h
    simp only [Bool.and_eq_true, beq_iff_eq] at h
    simpa [TsNode.kind] using h.1

theorem shapeEq_children : ∀ a b : TsNode, shapeEq a b = true →
    shapeEqList a.children b.children = true
  | .mk k p cs, .mk k' p' cs', h => by
    rw [shapeEq] at h
    simp only [Bool.and_eq_true] at h
    simpa [TsNode.children] using h.2

mutual

theorem shapeEq_trans : ∀ a b c : TsNode,
    shapeEq a b = true → shapeEq b c = true → shapeEq a c = true
  | .mk k p cs, .mk k' p' cs', .mk k'' p'' cs'', h1, h2 => by
    rw [shapeEq] at h1 h2 ⊢
    simp only [Bool.and_eq_true, beq_iff_eq] at h1 h2 ⊢
    exact ⟨h1.1.trans h2.1, shapeEqList_trans cs cs' cs'' h1.2 h2.2⟩

theorem shapeEqList_trans : ∀ as bs cs : List TsNode,
    shapeEqList as bs = true → shapeEqList bs cs = true → shapeEqList as cs = true
  | [], [], [], _, _ => rfl
  | a :: as, b :: bs, c :: cs, h1, h2 => by
    rw [shapeEqList] at h1 h2 ⊢
    simp only [Bool.and_eq_true] at h1 h2 ⊢
    exact ⟨shapeEq_trans a b c h1.1 h2.1, shapeEqList_trans as bs cs h1.2 h2.2⟩
  | [], [], _ :: _, _, h2 => Bool.noConfusion h2
  | [], _ :: _, _, h1, _ => Bool.noConfusion h1
  | _ :: _, [], _, h1, _ => Bool.noConfusion h1
  | _ :: _, _ :: _, [], _, h2 => Bool.noConfusion h2

end

mutual

theorem handleNode_frame : ∀ (σ : Bindings) (w : WTree) (n : TsNode) (i : Nat),
    i ∉ w.wids → (handleNode σ w n).1 i = σ i
  | σ, .mk wid ws, n, i, hi => by
    have hiw : i ≠ wid := fun h => hi (h ▸ wid_mem_wids (WTree.mk wid ws))
    have hil : i ∉ widsList ws := fun h => hi (by simp [wids_mk, h])
    rw [handleNode]
    split
    · rfl
    · split
      · simp [Bindings.set, hiw]
      · have hrec := handleChildren_frame σ ws n.children i hil
        split
        next σ' e heq => rw [heq] at hrec; exact hrec
        next σ' heq => rw [heq] at hrec; simpa [Bindings.set, hiw] using hrec

theorem handleChildren_frame : ∀ (σ : Bindings) (ws : List WTree) (ns : List TsNode)
    (i : Nat), i ∉ widsList ws → (handleChildren σ ws ns).1 i = σ i
  | σ, [], ns, i, hi => by
    rw [handleChildren]
    split <;> rfl
  | σ, w :: ws, [], i, hi => by rw [handleChildren]
  | σ, w :: ws, n :: ns, i, hi => by
    have hiw : i ∉ w.wids := fun h => hi (by simp [widsList_cons, h])
    have hil : i ∉ widsList ws := fun h => hi (by simp [widsList_cons, h])
    have hrec := handleNode_frame σ w n i hiw
    rw [handleChildren]
    split
    next σ' e heq => rw [heq] at hrec; exact hrec
    next σ' heq =>
      rw [heq] at hrec
      exact (handleChildren_frame σ' ws ns i hil).trans hrec

end

mutual

theorem consistent_congr : ∀ (σ₁ σ₂ : Bindings) (w : WTree),
    (∀ i ∈ w.wids, σ₁ i = σ₂ i) → consistent σ₁ w = consistent σ₂ w
  | σ₁, σ₂, .mk wid ws, h => by
    rw [consistent, consistent]
    rw [h wid (wid_mem_wids (WTree.mk wid ws))]
    rw [consistentChildren_congr σ₁ σ₂ ws ((σ₂ wid).children)
      (fun i hi => h i (by simp [wids_mk, hi]))]

theorem consistentChildren_congr : ∀ (σ₁ σ₂ : Bindings) (ws : List WTree)
    (os : List TsNode), (∀ i ∈ widsList ws, σ₁ i = σ₂ i) →
    consistentChildren σ₁ ws os = consistentChildren σ₂ ws os
  | σ₁, σ₂, [], os, h => by cases os <;> rfl
  | σ₁, σ₂, w :: ws, [], h => by rfl
  | σ₁, σ₂, w :: ws, o :: os, h => by
    have hw : ∀ i ∈ w.wids, σ₁ i = σ₂ i :=
      fun i hi => h i (by simp [widsList_cons, hi])
    have hl : ∀ i ∈ widsList ws, σ₁ i = σ₂ i :=
      fun i hi => h i (by simp [widsList_cons, hi])
    rw [consistentChildren, consistentChildren]
    rw [hw w.wid (wid_mem_wids w), consistent_congr σ₁ σ₂ w hw,
      consistentChildren_congr σ₁ σ₂ ws os hl]

end

mutual

theorem boundTo_congr : ∀ (σ₁ σ₂ : Bindings) (w : WTree) (n : TsNode),
    (∀ i ∈ w.wids, σ₁ i = σ₂ i) → boundTo σ₁ w n = boundTo σ₂ w n
  | σ₁, σ₂, .mk wid ws, n, h => by
    rw [boundTo, boundTo]
    rw [h wid (wid_mem_wids (WTree.mk wid ws))]
    rw [boundToList_congr σ₁ σ₂ ws n.children
      (fun i hi => h i (by simp [wids_mk, hi]))]

theorem boundToList_congr : ∀ (σ₁ σ₂ : Bindings) (ws : List WTree)
    (ns : List TsNode), (∀ i ∈ widsList ws, σ₁ i = σ₂ i) →
    boundToList σ₁ ws ns = boundToList σ₂ ws ns
  | σ₁, σ₂, [], ns, h => by cases ns <;> rfl
  | σ₁, σ₂, w :: ws, [], h => by rfl
  | σ₁, σ₂, w :: ws, n :: ns, h => by
    have hw : ∀ i ∈ w.wids, σ₁ i = σ₂ i :=
      fun i hi => h i (by simp [widsList_cons, hi])
    have hl : ∀ i ∈ widsList ws, σ₁ i = σ₂ i :=
      fun i hi => h i (by simp [widsList_cons, hi])
    rw [boundToList, boundToList]
    rw [boundTo_congr σ₁ σ₂ w n hw, boundToList_congr σ₁ σ₂ ws ns hl]

end

theorem handleNode_mismatch (σ : Bindings) (w : WTree) (n : TsNode)
    (h : (σ w.wid).kind ≠ n.kind) :
    handleNode σ w n = (σ, some (RError.invalidOperation (σ w.wid).kind n.kind)) := by
  cases w with
  | mk wid ws =>
    rw [handleNode]
    simp only [WTree.wid] at h
    rw [if_pos h]
    rfl

theorem handleNode_root (σ : Bindings) (w : WTree) (n : TsNode)
    (h : (handleNode σ w n).2 = none) : (handleNode σ w n).1 w.wid = n := by
  rcases hr : handleNode σ w n with ⟨σr, er⟩
  rw [hr] at h
  simp only at h
  subst h
  cases w with
  | mk wid ws =>
    rw [handleNode] at hr
    simp only [WTree.wid]
    split at hr
    · exact absurd (congrArg Prod.snd hr) (by simp)
    · split at hr
      · have hσ : Bindings.set σ wid n = σr := congrArg Prod.fst hr
        rw [← hσ]
        simp [Bindings.set]
      · split at hr
        next σ' e heq => exact absurd (congrArg Prod.snd hr) (by simp)
        next σ' heq =>
          have hσ : Bindings.set σ' wid n = σr := congrArg Prod.fst hr
          rw [← hσ]
          simp [Bindings.set]

theorem handleChildren_none_len : ∀ (σ : Bindings) (ws : List WTree)
    (ns : List TsNode), (handleChildren σ ws ns).2 = none → ws.length = ns.length
  | σ, [], ns, h => by
    rw [handleChildren] at h
    split at h
    · next hns => simp [List.isEmpty_iff.mp hns]
    · exact absurd h (by simp)
  | σ, w :: ws, [], h => by
    rw [handleChildren] at h
    exact absurd h (by simp)
  | σ, w :: ws, n :: ns, h => by
    rw [handleChildren] at h
    split at h
    next σ' e heq => exact absurd h (by simp)
    next σ' heq =>
      simpa using handleChildren_none_len σ' ws ns h

theorem handleChildren_append : ∀ (σ : Bindings) (ws : List WTree)
    (ns rest : List TsNode), ws.length = ns.length →
    handleChildren σ ws (ns ++ rest) =
      (match handleChildren σ ws ns with
       | (σ', none) =>
         (σ', if rest.isEmpty then none else some RError.leftoverNewChildren)
       | (σ', some e) => (σ', some e))
  | σ, [], ns, rest, h => by
    have : ns = [] := by cases ns <;> simp_all
    subst this
    simp only [List.nil_append]
    rw [handleChildren, handleChildren]
    by_cases hrest : rest.isEmpty = true <;> simp [hrest]
  | σ, w :: ws, [], rest, h => by simp at h
  | σ, w :: ws, n :: ns, rest, h => by
    simp only [List.cons_append]
    rw [handleChildren, handleChildren]
    split
    next σ' e heq => rfl
    next σ' heq =>
      exact handleChildren_append σ' ws ns rest (by simpa using h)

theorem handleChildren_split : ∀ (σ σ' : Bindings) (pre : List WTree)
    (npre : List TsNode) (ws₂ : List WTree) (ns₂ : List TsNode),
    handleChildren σ pre npre = (σ', none) →
    handleChildren σ (pre ++ ws₂) (npre ++ ns₂) = handleChildren σ' ws₂ ns₂
  | σ, σ', [], npre, ws₂, ns₂, h => by
    rw [handleChildren] at h
    split at h
    · next hns =>
      have hσ : σ = σ' := congrArg Prod.fst h
      have hnp : npre = [] := List.isEmpty_iff.mp hns
      subst hnp
      simp only [List.nil_append]
      rw [hσ]
    · exact absurd (congrArg Prod.snd h) (by simp)
  | σ, σ', w :: pre, [], ws₂, ns₂, h => by
    rw [handleChildren] at h
    exact absurd (congrArg Prod.snd h) (by simp)
  | σ, σ', w :: pre, n :: npre, ws₂, ns₂, h => by
    rw [handleChildren] at h
    simp only [List.cons_append]
    rw [handleChildren]
    split at h
    next σ₁ e heq => exact absurd (congrArg Prod.snd h) (by simp)
    next σ₁ heq =>
      exact handleChildren_split σ₁ σ' pre npre ws₂ ns₂ h

theorem handleNode_match (σ : Bindings) (wid : Nat) (ws : List WTree) (n : TsNode)
    (hk : (σ wid).kind = n.kind) :
    handleNode σ (WTree.mk wid ws) n =
      (if ws.isEmpty then (Bindings.set σ wid n, none)
       else
         match handleChildren σ ws n.children with
         | (σ', some e) => (σ', some e)
         | (σ', none) => (Bindings.set σ' wid n, none)) := by
  rw [handleNode]
  split
  next h => exact absurd hk h
  next h => rfl

mutual

theorem handleNode_ok : ∀ (σ : Bindings) (w : WTree) (n : TsNode),
    consistent σ w = true → shapeEq (σ w.wid) n = true → w.wids.Nodup →
    (handleNode σ w n).2 = none ∧
    ∀ i ∈ w.wids, shapeEq (σ i) ((handleNode σ w n).1 i) = true
  | σ, .mk wid ws, n, hc, hs, hd => by
    simp only [WTree.wid] at hs
    have hkeq : (σ wid).kind = n.kind := shapeEq_kind _ _ hs
    by_cases hw : ws.isEmpty = true
    · have hN : handleNode σ (WTree.mk wid ws) n = (Bindings.set σ wid n, none) := by
        rw [handleNode_match σ wid ws n hkeq, if_pos hw]
      have hws : ws = [] := List.isEmpty_iff.mp hw
      subst hws
      refine ⟨by rw [hN], ?_⟩
      intro i hi
      simp only [wids_mk, widsList, List.mem_singleton] at hi
      subst hi
      rw [hN]
      show shapeEq (σ i) (Bindings.set σ i n i) = true
      simp only [Bindings.set, if_pos rfl]
      exact hs
    · have hcc : consistentChildren σ ws (σ wid).children = true := by
        rw [consistent] at hc
        simpa [hw] using hc
      have hN : handleNode σ (WTree.mk wid ws) n =
          (match handleChildren σ ws n.children with
           | (σ', some e) => (σ', some e)
           | (σ', none) => (Bindings.set σ' wid n, none)) := by
        rw [handleNode_match σ wid ws n hkeq, if_neg hw]
      have hsl : shapeEqList (σ wid).children n.children = true :=
        shapeEq_children _ _ hs
      rw [wids_mk] at hd
      have hd' : (widsList ws).Nodup := (List.nodup_cons.mp hd).2
      have hwid : wid ∉ widsList ws := (List.nodup_cons.mp hd).1
      obtain ⟨hcnone, hcpres⟩ := handleChildren_ok σ ws (σ wid).children n.children hcc hsl hd'
      rcases hhc : handleChildren σ ws n.children with ⟨σ₂, e₂⟩
      rw [hhc] at hcnone hcpres
      simp only at hcnone
      subst hcnone
      have hN2 : handleNode σ (WTree.mk wid ws) n = (Bindings.set σ₂ wid n, none) := by
        rw [hN, hhc]
      refine ⟨by rw [hN2], ?_⟩
      intro i hi
      rw [hN2]
      show shapeEq (σ i) (Bindings.set σ₂ wid n i) = true
      simp only [wids_mk, List.mem_cons] at hi
      rcases hi with hi | hi
      · subst hi
        simp only [Bindings.set, if_pos rfl]
        exact hs
      · have hiw : i ≠ wid := fun h => hwid (h ▸ hi)
        simp only [Bindings.set, if_neg hiw]
        exact hcpres i hi

theorem handleChildren_ok : ∀ (σ : Bindings) (ws : List WTree) (os ns : List TsNode),
    consistentChildren σ ws os = true → shapeEqList os ns = true →
    (widsList ws).Nodup →
    (handleChildren σ ws ns).2 = none ∧
    ∀ i ∈ widsList ws, shapeEq (σ i) ((handleChildren σ ws ns).1 i) = true
  | σ, [], os, ns, hc, hs, hd => by
    cases os with
    | cons o os => exact Bool.noConfusion hc
    | nil =>
      cases ns with
      | cons n ns => exact Bool.noConfusion hs
      | nil =>
        refine ⟨rfl, ?_⟩
        intro i hi
        exact absurd hi (by simp [widsList])
  | σ, w :: ws, os, ns, hc, hs, hd => by
    cases os with
    | nil => exact Bool.noConfusion hc
    | cons o os =>
      cases ns with
      | nil => exact Bool.noConfusion hs
      | cons n ns =>
        rw [consistentChildren] at hc
        rw [shapeEqList] at hs
        simp only [Bool.and_eq_true] at hc hs
        obtain ⟨⟨hsw, hcw⟩, hctail⟩ := hc
        obtain ⟨hso, hstail⟩ := hs
        rw [widsList_cons] at hd
        rw [List.nodup_append] at hd
        obtain ⟨hd₁, hd₂, hdisj⟩ := hd
        have hs1 : shapeEq (σ w.wid) n = true := shapeEq_trans _ _ _ hsw hso
        obtain ⟨h1none, h1pres⟩ := handleNode_ok σ w n hcw hs1 hd₁
        rcases hhn : handleNode σ w n with ⟨σ₁, e₁⟩
        rw [hhn] at h1none h1pres
        simp only at h1none
        subst h1none
        have hstep : handleChildren σ (w :: ws) (n :: ns) = handleChildren σ₁ ws ns := by
          rw [handleChildren, hhn]
        have hframe1 : ∀ i, i ∉ w.wids → σ₁ i = σ i := by
          intro i hi
          have h := handleNode_frame σ w n i hi
          rw [hhn] at h
          exact h
        have hagree : ∀ i ∈ widsList ws, σ₁ i = σ i := fun i hi =>
          hframe1 i (fun hmem => hdisj hmem hi)
        have hctail' : consistentChildren σ₁ ws os = true := by
          rw [consistentChildren_congr σ₁ σ ws os hagree]
          exact hctail
        obtain ⟨h2none, h2pres⟩ := handleChildren_ok σ₁ ws os ns hctail' hstail hd₂
        rcases hhc2 : handleChildren σ₁ ws ns with ⟨σ₂, e₂⟩
        rw [hhc2] at h2none h2pres
        simp only at h2none
        subst h2none
        have hframe2 : ∀ i, i ∉ widsList ws → σ₂ i = σ₁ i := by
          intro i hi
          have h := handleChildren_frame σ₁ ws ns i hi
          rw [hhc2] at h
          exact h
        refine ⟨by rw [hstep, hhc2], ?_⟩
        intro i hi
        rw [hstep, hhc2]
        show shapeEq (σ i) (σ₂ i) = true
        rw [widsList_cons] at hi
        rcases List.mem_append.mp hi with hi | hi
        · rw [hframe2 i (fun hmem => hdisj hi hmem)]
          exact h1pres i hi
        · rw [← hagree i hi]
          exact h2pres i hi

end

mutual

theorem handleNode_bound : ∀ (σ : Bindings) (w : WTree) (n : TsNode),
    (handleNode σ w n).2 = none → w.wids.Nodup →
    boundTo (handleNode σ w n).1 w n = true
  | σ, .mk wid ws, n, h, hd => by
    rcases hr : handleNode σ (WTree.mk wid ws) n with ⟨σr, er⟩
    rw [hr] at h
    simp only at h
    subst h
    rw [wids_mk] at hd
    have hwid : wid ∉ widsList ws := (List.nodup_cons.mp hd).1
    have hd' : (widsList ws).Nodup := (List.nodup_cons.mp hd).2
    rw [handleNode] at hr
    split at hr
    · exact absurd (congrArg Prod.snd hr) (by simp)
    · split at hr
      next hw =>
        have hws : ws = [] := List.isEmpty_iff.mp hw
        subst hws
        have hσ : Bindings.set σ wid n = σr := congrArg Prod.fst hr
        rw [boundTo]
        show (TsNode.beq (σr wid) n && (true || boundToList σr [] n.children)) = true
        rw [← hσ]
        simp only [Bindings.set, if_pos rfl, Bool.true_or, Bool.and_true]
        exact TsNode.beq_refl n
      next hw =>
        split at hr
        next σ₂ e heq => exact absurd (congrArg Prod.snd hr) (by simp)
        next σ₂ heq =>
          have hσ : Bindings.set σ₂ wid n = σr := congrArg Prod.fst hr
          have hbl : boundToList σ₂ ws n.children = true := by
            have h2 := handleChildren_bound σ ws n.children (by rw [heq]) hd'
            rw [heq] at h2
            exact h2
          show boundTo σr (WTree.mk wid ws) n = true
          rw [boundTo]
          have hagree : ∀ i ∈ widsList ws, σ₂ i = σr i := by
            intro i hi
            rw [← hσ]
            have hiw : i ≠ wid := fun hh => hwid (hh ▸ hi)
            simp [Bindings.set, hiw]
          rw [boundToList_congr σ₂ σr ws n.children hagree] at hbl
          rw [hbl]
          have hroot : σr wid = n := by
            rw [← hσ]
            simp [Bindings.set]
          rw [hroot]
          simp [TsNode.beq_refl]

theorem handleChildren_bound : ∀ (σ : Bindings) (ws : List WTree) (ns : List TsNode),
    (handleChildren σ ws ns).2 = none → (widsList ws).Nodup →
    boundToList (handleChildren σ ws ns).1 ws ns = true
  | σ, [], ns, h, hd => by
    cases ns with
    | nil => rfl
    | cons n ns => exact absurd h (by rw [handleChildren]; simp)
  | σ, w :: ws, [], h, hd => by
    rw [handleChildren] at h
    exact absurd h (by simp)
  | σ, w :: ws, n :: ns, h, hd => by
    rw [widsList_cons, List.nodup_append] at hd
    obtain ⟨hd₁, hd₂, hdisj⟩ := hd
    rw [handleChildren] at h ⊢
    split at h
    next σ₁ e heq => exact absurd h (by simp)
    next σ₁ heq =>
      have hb1 : boundTo σ₁ w n = true := by
        have hb := handleNode_bound σ w n (by rw [heq]) hd₁
        rw [heq] at hb
        exact hb
      have hb2 : boundToList (handleChildren σ₁ ws ns).1 ws ns = true :=
        handleChildren_bound σ₁ ws ns h hd₂
      rcases hhc : handleChildren σ₁ ws ns with ⟨σ₂, e₂⟩
      rw [hhc] at hb2
      show boundToList σ₂ (w :: ws) (n :: ns) = true
      rw [boundToList]
      have hagree : ∀ i ∈ w.wids, σ₁ i = σ₂ i := by
        intro i hi
        have hfr := handleChildren_frame σ₁ ws ns i (fun hmem => hdisj hi hmem)
        rw [hhc] at hfr
        exact hfr.symm
      rw [← boundTo_congr σ₁ σ₂ w n hagree, hb1]
      simpa using hb2

end

/-- C1: reconciling a wrapper subtree against a new underlying subtree that
is kind-for-kind and child-count-for-child-count identical to the old bound
subtree completes without raising, rebinds the root wrapper to the new node
(the wrapper tree itself is immutable data in this embedding, so every
wrapper keeps its object identity and is rebound, never replaced), and every
materialized wrapper's kind() after reconciliation equals its kind()
before. -/
theorem straight_identity_preservation (σ : Bindings) (w : WTree) (n : TsNode)
    (hcons : consistent σ w = true) (hshape : shapeEq (σ w.wid) n = true)
    (hids : w.wids.Nodup) :
    (handleNode σ w n).2 = none ∧
    (handleNode σ w n).1 w.wid = n ∧
    kindsPreserved σ (handleNode σ w n).1 w.wids = true := by
  obtain ⟨hnone, hpres⟩ := handleNode_ok σ w n hcons hshape hids
  refine ⟨hnone, handleNode_root σ w n hnone, ?_⟩
  rw [kindsPreserved, List.all_eq_true]
  intro i hi
  exact beq_iff_eq.mpr (shapeEq_kind _ _ (hpres i hi)).symm

/-- C1 witness: the concrete two-child wrapper tree reconciled against the
shape-identical reparsed tree. -/
theorem straight_identity_preservation_witness :
    (handleNode exSigma exW exNewRoot).2 = none ∧
    (handleNode exSigma exW exNewRoot).1 (WTree.wid exW) = exNewRoot ∧
    kindsPreserved exSigma (handleNode exSigma exW exNewRoot).1 (WTree.wids exW) = true :=
  straight_identity_preservation exSigma exW exNewRoot (by decide) (by decide)
    (by decide)

/-- C2: handleNode called on a wrapper whose kind differs from the new
node's kind returns the binding state completely unchanged together with an
InvalidOperationError carrying both kind tags — no rebinding happens on the
node or any descendant, child reconciliation and the registry rebind are
never reached. -/
theorem straight_kind_mismatch_fails_closed (σ : Bindings) (w : WTree)
    (n : TsNode) (hk : (σ w.wid).kind ≠ n.kind) :
    handleNode σ w n = (σ, some (RError.invalidOperation (σ w.wid).kind n.kind)) :=
  handleNode_mismatch σ w n hk

/-- C2 witness: wrapper 3 (bound to the kind-10 root) against the kind-99
node. -/
theorem straight_kind_mismatch_fails_closed_witness :
    handleNode exSigma (WTree.mk 3 []) exBadNode =
      (exSigma, some (RError.invalidOperation 10 99)) := by
  have h := straight_kind_mismatch_fails_closed exSigma (WTree.mk 3 []) exBadNode
    (by decide)
  exact h

/-- C3: when handleNode completes without raising on a wrapper tree with
distinct wrapper identities, the resulting binding state binds the whole
wrapper tree onto the new underlying tree path-for-path: the root to the new
node itself, and recursively each i-th tracked wrapper child onto the i-th
new child it was dispatched against. -/
theorem straight_rebinding_correctness (σ : Bindings) (w : WTree) (n : TsNode)
    (hok : (handleNode σ w n).2 = none) (hids : w.wids.Nodup) :
    boundTo (handleNode σ w n).1 w n = true :=
  handleNode_bound σ w n hok hids

/-- C3 witness: after the successful concrete reconciliation both wrapper
children are bound to the corresponding new children. -/
theorem straight_rebinding_correctness_witness :
    boundTo (handleNode exSigma exW exNewRoot).1 exW exNewRoot = true :=
  straight_rebinding_correctness exSigma exW exNewRoot (by decide) (by decide)

/-- C4: under a matching kind, a wrapper with no materialized children skips
child reconciliation entirely and only the registry rebind occurs, while a
wrapper with materialized children runs handleChildren on the pre-rebind
binding state first and swaps the parent's own binding only afterwards, on
the state the children produced; in particular when child reconciliation
raises, the parent's binding is left untouched. -/
theorem straight_children_reconciled_before_rebind (σ : Bindings) (wid : Nat)
    (ws : List WTree) (n : TsNode) (hk : (σ wid).kind = n.kind) :
    (ws = [] → handleNode σ (WTree.mk wid ws) n = (Bindings.set σ wid n, none)) ∧
    (ws ≠ [] →
      handleNode σ (WTree.mk wid ws) n =
        (match handleChildren σ ws n.children with
         | (σ', some e) => (σ', some e)
         | (σ', none) => (Bindings.set σ' wid n, none))) ∧
    (ws ≠ [] → wid ∉ widsList ws →
      (handleChildren σ ws n.children).2.isSome = true →
      (handleNode σ (WTree.mk wid ws) n).1 wid = σ wid) := by
  have hne : ws ≠ [] → ¬ ws.isEmpty = true := fun hws h =>
    hws (List.isEmpty_iff.mp h)
  refine ⟨?_, ?_, ?_⟩
  · intro hws
    subst hws
    rw [handleNode_match σ wid [] n hk]
    rfl
  · intro hws
    rw [handleNode_match σ wid ws n hk, if_neg (hne hws)]
  · intro hws hwid hsome
    rw [handleNode_match σ wid ws n hk, if_neg (hne hws)]
    rcases hhc : handleChildren σ ws n.children with ⟨σ', e⟩
    cases e with
    | none => rw [hhc] at hsome; exact absurd hsome (by simp)
    | some e =>
      show σ' wid = σ wid
      have h := handleChildren_frame σ ws n.children wid hwid
      rw [hhc] at h
      exact h

/-- C4 witness: the concrete wrapper with two tracked children, plus the
empty-children case on wrapper 3. -/
theorem straight_children_reconciled_before_rebind_witness :
    (exWs = [] → handleNode exSigma (WTree.mk 0 exWs) exNewRoot =
      (Bindings.set exSigma 0 exNewRoot, none)) ∧
    (exWs ≠ [] →
      handleNode exSigma (WTree.mk 0 exWs) exNewRoot =
        (match handleChildren exSigma exWs exNewRoot.children with
         | (σ', some e) => (σ', some e)
         | (σ', none) => (Bindings.set σ' 0 exNewRoot, none))) ∧
    (exWs ≠ [] → 0 ∉ widsList exWs →
      (handleChildren exSigma exWs exNewRoot.children).2.isSome = true →
      (handleNode exSigma (WTree.mk 0 exWs) exNewRoot).1 0 = exSigma 0) :=
  straight_children_reconciled_before_rebind exSigma 0 exWs exNewRoot (by decide)

/-- C5: pairing N tracked wrapper children against a new-children list with
surplus entries dispatches exactly the N positional pairs — the final
binding state is the same one the successful N-pair run produces — and then
raises the leftover-children Error, so surplus new children are neither
silently dropped nor wrapped. -/
theorem straight_leftover_children_fails_closed (σ : Bindings)
    (ws : List WTree) (os ns extra : List TsNode)
    (hcons : consistentChildren σ ws os = true)
    (hshape : shapeEqList os ns = true) (hids : (widsList ws).Nodup)
    (hextra : extra ≠ []) :
    (handleChildren σ ws ns).2 = none ∧
    handleChildren σ ws (ns ++ extra) =
      ((handleChildren σ ws ns).1, some RError.leftoverNewChildren) := by
  obtain ⟨hnone, _⟩ := handleChildren_ok σ ws os ns hcons hshape hids
  refine ⟨hnone, ?_⟩
  have hlen : ws.length = ns.length := handleChildren_none_len σ ws ns hnone
  rw [handleChildren_append σ ws ns extra hlen]
  rcases hhc : handleChildren σ ws ns with ⟨σ', e⟩
  rw [hhc] at hnone
  simp only at hnone
  subst hnone
  have hie : extra.isEmpty = false := by
    cases extra with
    | nil => exact absurd rfl hextra
    | cons a as => rfl
  simp [hie]

/-- C5 witness: wrappers 1 and 2 paired against their two new children plus
one surplus node. -/
theorem straight_leftover_children_fails_closed_witness :
    (handleChildren exSigma exWs [exNewA, exNewB]).2 = none ∧
    handleChildren exSigma exWs ([exNewA, exNewB] ++ [exExtra]) =
      ((handleChildren exSigma exWs [exNewA, exNewB]).1,
        some RError.leftoverNewChildren) :=
  straight_leftover_children_fails_closed exSigma exWs [exOldA, exOldB]
    [exNewA, exNewB] [exExtra] (by decide) (by decide) (by decide)
    (List.cons_ne_nil exExtra [])

/-- C6: when a reconciliation pass raises at the k-th child pair because of
a kind mismatch, nothing is rolled back: the final binding state is exactly
the state produced by the k-1 successfully reconciled leading pairs (all
their subtree rebindings stay in place), while the failed wrapper — and,
through the frame property, every not-yet-visited sibling — keeps its old
binding. -/
theorem straight_no_rollback (σ : Bindings) (pre : List WTree)
    (opre npre : List TsNode) (wbad : WTree) (post : List WTree)
    (nbad : TsNode) (npost : List TsNode)
    (hcons : consistentChildren σ pre opre = true)
    (hshape : shapeEqList opre npre = true)
    (hids : (widsList (pre ++ wbad :: post)).Nodup)
    (hbad : (σ wbad.wid).kind ≠ nbad.kind) :
    (handleChildren σ (pre ++ wbad :: post) (npre ++ nbad :: npost)).2 =
      some (RError.invalidOperation (σ wbad.wid).kind nbad.kind) ∧
    (handleChildren σ (pre ++ wbad :: post) (npre ++ nbad :: npost)).1 =
      (handleChildren σ pre npre).1 ∧
    (handleChildren σ (pre ++ wbad :: post) (npre ++ nbad :: npost)).1 wbad.wid =
      σ wbad.wid := by
  rw [widsList_append, List.nodup_append] at hids
  obtain ⟨hd₁, hd₂, hdisj⟩ := hids
  obtain ⟨hnone, _⟩ := handleChildren_ok σ pre opre npre hcons hshape hd₁
  rcases hp : handleChildren σ pre npre with ⟨σp, ep⟩
  rw [hp] at hnone
  simp only at hnone
  subst hnone
  have hsplit := handleChildren_split σ σp pre npre (wbad :: post)
    (nbad :: npost) hp
  have hwmem : wbad.wid ∈ widsList (wbad :: post) := by
    rw [widsList_cons]
    exact List.mem_append.mpr (Or.inl (wid_mem_wids wbad))
  have hwnot : wbad.wid ∉ widsList pre := fun hmem => hdisj hmem hwmem
  have hfr : σp wbad.wid = σ wbad.wid := by
    have h := handleChildren_frame σ pre npre wbad.wid hwnot
    rw [hp] at h
    exact h
  have hstep : handleChildren σp (wbad :: post) (nbad :: npost) =
      (σp, some (RError.invalidOperation (σ wbad.wid).kind nbad.kind)) := by
    rw [handleChildren, handleNode_mismatch σp wbad nbad (by rw [hfr]; exact hbad),
      hfr]
  rw [hsplit, hstep]
  exact ⟨rfl, rfl, hfr⟩

/-- C6 witness: wrapper 1 reconciles successfully, then wrapper 2 hits the
kind-99 node; wrapper 1 keeps its new binding, wrapper 2 its old one. -/
theorem straight_no_rollback_witness :
    (handleChildren exSigma ([WTree.mk 1 []] ++ WTree.mk 2 [] :: [])
        ([exNewA] ++ exBadNode :: [])).2 =
      some (RError.invalidOperation (exSigma (WTree.wid (WTree.mk 2 []))).kind
        exBadNode.kind) ∧
    (handleChildren exSigma ([WTree.mk 1 []] ++ WTree.mk 2 [] :: [])
        ([exNewA] ++ exBadNode :: [])).1 =
      (handleChildren exSigma [WTree.mk 1 []] [exNewA]).1 ∧
    (handleChildren exSigma ([WTree.mk 1 []] ++ WTree.mk 2 [] :: [])
        ([exNewA] ++ exBadNode :: [])).1 (WTree.wid (WTree.mk 2 [])) =
      exSigma (WTree.wid (WTree.mk 2 [])) :=
  straight_no_rollback exSigma [WTree.mk 1 []] [exOldA] [exNewA]
    (WTree.mk 2 []) [] exBadNode [] (by decide) (by decide) (by decide)
    (by decide)

/-- C7: the child-pairing loop performs no kind validation of its own before
delegating — on a mismatched pair its entire result is exactly the result of
dispatching the pair into the strategy, and the error that surfaces is the
InvalidOperationError raised by the precondition check at the top of
handleNode, with the binding state untouched. -/
theorem helper_delegates_kind_mismatch (σ : Bindings) (w : WTree) (n : TsNode)
    (ws : List WTree) (ns : List TsNode) (hk : (σ w.wid).kind ≠ n.kind) :
    handleChildren σ (w :: ws) (n :: ns) = handleNode σ w n ∧
    handleChildren σ (w :: ws) (n :: ns) =
      (σ, some (RError.invalidOperation (σ w.wid).kind n.kind)) := by
  have hm := handleNode_mismatch σ w n hk
  constructor
  · rw [handleChildren, hm]
  · rw [handleChildren, hm]

/-- C7 witness: the mismatched head pair (wrapper 2 against the kind-99
node) is dispatched and the delegate's error is the helper's result. -/
theorem helper_delegates_kind_mismatch_witness :
    handleChildren exSigma (WTree.mk 2 [] :: []) (exBadNode :: []) =
      handleNode exSigma (WTree.mk 2 []) exBadNode ∧
    handleChildren exSigma (WTree.mk 2 [] :: []) (exBadNode :: []) =
      (exSigma, some (RError.invalidOperation
        (exSigma (WTree.wid (WTree.mk 2 []))).kind exBadNode.kind)) :=
  helper_delegates_kind_mismatch exSigma (WTree.mk 2 []) exBadNode [] []
    (by decide)

/-- Auxiliary: folding list-append pushes over a list starting from an
accumulator equals the accumulator followed by the flattening of the mapped
list. -/
theorem foldl_push_eq_join (f : TsNode → List TsNode) :
    ∀ (ls acc : List TsNode),
      ls.foldl (fun acc l => acc ++ f l) acc = acc ++ (ls.map f).flatten
  | [], acc => by simp
  | l :: ls, acc => by
    simp only [List.foldl_cons, List.map_cons, List.flatten_cons,
      foldl_push_eq_join f ls (acc ++ f l), List.append_assoc]

/-- C8: getBody on a StatementedNode wrapper returns the wrapper object
itself for a source file, the factory wrapper of the underlying body for a
namespace declaration or a function declaration with a non-null body, raises
the no-body NotImplementedError for a function declaration whose body is
null, and raises the generic not-implemented error for every other kind; its
Except result is total, so it never returns undefined. -/
theorem statemented_getBody_cases (factory : TsNode → Wrapped) (self : Wrapped) :
    StatementedNode.getBody factory self .sourceFile = .ok self ∧
    (∀ body, StatementedNode.getBody factory self (.namespaceDecl body) =
      .ok (factory body)) ∧
    (∀ body, StatementedNode.getBody factory self (.functionDecl (some body)) =
      .ok (factory body)) ∧
    StatementedNode.getBody factory self (.functionDecl none) =
      .error AccessorError.noBody ∧
    StatementedNode.getBody factory self .otherKind =
      .error AccessorError.notImplemented :=
  ⟨rfl, fun _ => rfl, fun _ => rfl, rfl, rfl⟩

/-- C9: getElseStatement returns undefined exactly when the underlying if
statement has no else clause and otherwise the factory wrapper of the else
statement, while getExpression and getThenStatement always return a wrapper
(their result type is not optional). -/
theorem ifStatement_getters_totality (factory : TsNode → Wrapped)
    (s : TsIfStatement) :
    IfStatement.getElseStatement factory s = Option.map factory s.elseStatement ∧
    (IfStatement.getElseStatement factory s = none ↔ s.elseStatement = none) ∧
    IfStatement.getExpression factory s = factory s.expression ∧
    IfStatement.getThenStatement factory s = factory s.thenStatement := by
  refine ⟨?_, ?_, rfl, rfl⟩
  · cases h : s.elseStatement <;>
      simp [IfStatement.getElseStatement, getNodeFromCompilerNodeIfExists, h]
  · cases h : s.elseStatement <;>
      simp [IfStatement.getElseStatement, getNodeFromCompilerNodeIfExists, h]

/-- C10: getVariableDeclarations is the in-order flattening, over the direct
variable statement children in document order, of each statement's
declaration list's declarations; equivalently it flattens getDeclarations
over getVariableDeclarationLists, which itself is exactly
getVariableStatements mapped through getDeclarationList. -/
theorem statemented_variable_declarations_flatten
    (getDeclarationList : TsNode → TsNode)
    (getDeclarations : TsNode → List TsNode) (n : TsNode) :
    getVariableDeclarations getDeclarationList getDeclarations n =
      ((getVariableStatements n).map
        (fun s => getDeclarations (getDeclarationList s))).flatten ∧
    getVariableDeclarationLists getDeclarationList n =
      (getVariableStatements n).map getDeclarationList ∧
    getVariableDeclarations getDeclarationList getDeclarations n =
      ((getVariableDeclarationLists getDeclarationList n).map
        getDeclarations).flatten := by
  refine ⟨?_, rfl, ?_⟩
  · rw [getVariableDeclarations, foldl_push_eq_join]
    simp only [List.nil_append, getVariableDeclarationLists, List.map_map]
    rfl
  · rw [getVariableDeclarations, foldl_push_eq_join]
    simp
